import Mathlib

/-!
Verification of the eth-jsonrpc-server core against its natural-language
specification.  The Go source is shallowly embedded: Ethereum addresses and
hashes are modelled as `Nat`, byte strings as `List Nat` (each entry < 256),
Go's `int64`/`uint64` arithmetic as `Int`/`Nat` with explicit wrapping where
the source converts between them, and fallible Go calls as `Except String`
or explicit `(value, error)` pairs matching the Go return shape.
-/

namespace EthJsonRpc

/-! ## Data model (ethgo primitives and repository records) -/

/-- ethgo.Log, restricted to the fields the repository reads. -/
structure Log where
  address : Nat
  topics : List Nat
deriving DecidableEq, Repr

/-- ethgo.Receipt, restricted to the fields the repository reads. -/
structure Receipt where
  logs : List Log
deriving DecidableEq, Repr

/-- ethgo.Block, restricted to the fields the repository reads. -/
structure Block where
  number : Nat
  stateRoot : Nat
  hash : Nat
deriving DecidableEq, Repr

/-- Account record from blockchain.go. -/
structure Account where
  nonce : Nat
  balance : Nat
  root : Nat
  codeHash : List Nat
deriving DecidableEq, Repr

/-- GetLogsInput from blockchain.go. -/
structure GetLogsInput where
  From : Nat
  To : Nat
  Addresses : List Nat
  Topics : List (List Nat)
deriving DecidableEq, Repr

/-- The three BlockNumber sentinels from net_endpoint.go. -/
def PendingBlockNumber : Int := -3

def LatestBlockNumber : Int := -2

def EarliestBlockNumber : Int := -1

/-- LogFilter from net_endpoint.go (field case follows the Go struct;
`fromBlock`/`toBlock` are the unexported range fields). -/
structure LogFilter where
  BlockHash : Option Nat
  fromBlock : Int
  toBlock : Int
  Addresses : List Nat
  Topics : List (List Nat)
deriving DecidableEq, Repr

/-- LogFilter.Match from net_endpoint.go: the address check scans
`l.Addresses` (empty list imposes no constraint), then the filter fails if it
has more topic slots than the log has topics, and otherwise every slot must
be empty or contain the log topic at its index. -/
def LogFilter.Match (l : LogFilter) (log : Log) : Bool :=
  let addrOk : Bool :=
    if l.Addresses.length > 0 then l.Addresses.any (fun addr => addr == log.address)
    else true
  if !addrOk then false
  else if l.Topics.length > log.topics.length then false
  else
    (List.range l.Topics.length).all (fun i =>
      let sub := l.Topics.getD i []
      (sub.length == 0) || sub.any (fun topic => log.topics.getD i 0 == topic))

/-! ## Value codec (types.go and the BlockNumber parser in net_endpoint.go)

Go strings are modelled as `List Char`; `encoding/hex` bytes as `List Nat`. -/

/-- encoding/hex fromHexChar: value of one hex digit (both cases accepted). -/
def fromHexChar? (c : Char) : Option Nat :=
  if '0' ≤ c ∧ c ≤ '9' then some (c.toNat - 48)
  else if 'a' ≤ c ∧ c ≤ 'f' then some (c.toNat - 97 + 10)
  else if 'A' ≤ c ∧ c ≤ 'F' then some (c.toNat - 65 + 10)
  else none

/-- encoding/hex DecodeString: consume digit pairs; an invalid digit or an
odd-length input is an error. -/
def hexDecodeChars : List Char → Except String (List Nat)
  | [] => .ok []
  | [_] => .error "encoding/hex: odd length hex string"
  | a :: b :: rest =>
    match fromHexChar? a, fromHexChar? b with
    | some ha, some hb => (hexDecodeChars rest).map (fun t => (ha * 16 + hb) :: t)
    | _, _ => .error "encoding/hex: invalid byte"

/-- encoding/hex hextable digit (lowercase). -/
def toHexDigit (n : Nat) : Char :=
  if n < 10 then Char.ofNat (48 + n) else Char.ofNat (87 + n)

/-- encoding/hex EncodeToString: two lowercase digits per byte. -/
def hexEncodeChars (bs : List Nat) : List Char :=
  bs.flatMap (fun b => [toHexDigit (b / 16), toHexDigit (b % 16)])

/-- strings.TrimPrefix(s, "0x"): drop one leading "0x" if present. -/
def trimPrefix0x : List Char → List Char
  | '0' :: 'x' :: rest => rest
  | cs => cs

/-- The odd-length guard shared by decodeToHex and encodeToHex in types.go:
left-pad with one "0" nibble when the length is odd. -/
def padOdd (cs : List Char) : List Char :=
  if cs.length % 2 ≠ 0 then '0' :: cs else cs

/-- decodeToHex from types.go: strip "0x", left-pad odd-length input with one
"0" nibble, hex-decode. -/
def decodeToHex (b : List Char) : Except String (List Nat) :=
  hexDecodeChars (padOdd (trimPrefix0x b))

/-- encodeToHex from types.go ("0x" + hex; the odd-length branch is kept from
the source although hex encoding always has even length). -/
def encodeToHex (b : List Nat) : List Char :=
  '0' :: 'x' :: padOdd (hexEncodeChars b)

/-- argBytes.MarshalText from types.go. -/
def argBytes.MarshalText (b : List Nat) : List Char :=
  encodeToHex b

/-- argBytes.UnmarshalText from types.go.  Mirrors the source exactly: when
`decodeToHex` fails the method returns `nil` (types.go line 77), so the
receiver keeps its previous value and no error is reported; the returned
`Option String` is the Go `error` result, which is `none` on every path. -/
def argBytes.UnmarshalText (b : List Nat) (input : List Char) : List Nat × Option String :=
  match decodeToHex input with
  | .error _ => (b, none)
  | .ok hh => (hh, none)

/-- Minimal lowercase base-16 rendering of an unsigned integer, the common
output of strconv.AppendUint(, 16) and big.Int.Text(16) on non-negative
values ("0" for zero, no leading zeros otherwise). -/
def natToHex (n : Nat) : List Char :=
  if n = 0 then ['0'] else ((Nat.digits 16 n).map toHexDigit).reverse

/-- argUint64.MarshalText from types.go: "0x" + lowercase hex. -/
def argUint64.MarshalText (n : Nat) : List Char :=
  '0' :: 'x' :: natToHex n

/-- strconv digit value: 0-9, a-z, A-Z (Go's lower() folding), valid when
below the base. -/
def digitVal? (base : Nat) (c : Char) : Option Nat :=
  let d? : Option Nat :=
    if '0' ≤ c ∧ c ≤ '9' then some (c.toNat - 48)
    else if 'a' ≤ c ∧ c ≤ 'z' then some (c.toNat - 97 + 10)
    else if 'A' ≤ c ∧ c ≤ 'Z' then some (c.toNat - 65 + 10)
    else none
  d?.bind (fun d => if d < base then some d else none)

/-- Accumulated value of a digit string, `none` on the first invalid digit. -/
def parseDigitsVal? (base : Nat) (cs : List Char) : Option Nat :=
  cs.foldl (fun acc c => acc.bind (fun a => (digitVal? base c).map (fun d => a * base + d))) (some 0)

/-- strconv.ParseUint(s, base, 64): rejects the empty string, any invalid
digit, and any value not below 2^64 (Go reports ErrRange there). -/
def goParseUint (cs : List Char) (base : Nat) : Except String Nat :=
  if cs.isEmpty then .error "strconv.ParseUint: parsing: invalid syntax"
  else
    match parseDigitsVal? base cs with
    | none => .error "strconv.ParseUint: parsing: invalid syntax"
    | some v =>
      if v < 2 ^ 64 then .ok v else .error "strconv.ParseUint: parsing: value out of range"

/-- argUint64.UnmarshalText from types.go: strip one "0x" and parse base 16. -/
def argUint64.UnmarshalText (input : List Char) : Except String Nat :=
  goParseUint (trimPrefix0x input) 16

/-- big.Int.SetBytes: big-endian byte interpretation. -/
def bytesToNat (bs : List Nat) : Nat :=
  bs.foldl (fun a b => a * 256 + b) 0

/-- big.Int.Bytes: minimal big-endian bytes (empty for zero). -/
def natToBytes (n : Nat) : List Nat :=
  (Nat.digits 256 n).reverse

/-- argBig.MarshalText from types.go for a non-negative value:
"0x" + big.Int.Text(16). -/
def argBig.MarshalText (n : Nat) : List Char :=
  '0' :: 'x' :: natToHex n

/-- argBig.UnmarshalText from types.go: decodeToHex then big.Int.SetBytes. -/
def argBig.UnmarshalText (input : List Char) : Except String Nat :=
  (decodeToHex input).map bytesToNat

/-- Go conversion BlockNumber(n) for a uint64 n: int64 two's-complement
wrap. -/
def toInt64 (n : Nat) : Int :=
  if n < 2 ^ 63 then (n : Int) else (n : Int) - 2 ^ 64

/-- strings.Trim(s, "\""): drop every leading and trailing quote. -/
def trimQuotes (cs : List Char) : List Char :=
  (((cs.dropWhile (· == '"')).reverse).dropWhile (· == '"')).reverse

/-- parseUint64orHex from net_endpoint.go, called with a non-nil string:
base 16 after a "0x" prefix, base 10 otherwise. -/
def parseUint64orHex (cs : List Char) : Except String Nat :=
  match cs with
  | '0' :: 'x' :: rest => goParseUint rest 16
  | cs => goParseUint cs 10

/-- stringToBlockNumber from net_endpoint.go: reject the empty string, trim
quotes, match the three keywords, otherwise parse as uint64 and convert with
the int64 wrap of `BlockNumber(n)`. -/
def stringToBlockNumber (s : List Char) : Except String Int :=
  if s.isEmpty then .error "value is empty"
  else
    let str := trimQuotes s
    if str = "pending".toList then .ok PendingBlockNumber
    else if str = "latest".toList then .ok LatestBlockNumber
    else if str = "earliest".toList then .ok EarliestBlockNumber
    else (parseUint64orHex str).map toInt64

/-- BlockNumber.UnmarshalJSON from net_endpoint.go: the raw JSON buffer is
handed to stringToBlockNumber verbatim. -/
def BlockNumber.UnmarshalJSON (buffer : List Char) : Except String Int :=
  stringToBlockNumber buffer

/-! ## Eth endpoint (eth_endpoint.go over the backend the call sites use) -/

/-- ethgo.Transaction restricted to the fields decodeTxn sets (the GasPrice
assignment is commented out in the source and therefore omitted). -/
structure Txn where
  From : Nat
  To : Option Nat
  Gas : Nat
  Value : Nat
  Input : List Nat
  Nonce : Nat
  Hash : Nat
deriving DecidableEq, Repr

/-- txnArgs from types.go; every field is a Go pointer, hence an Option. -/
structure TxnArgs where
  From : Option Nat
  To : Option Nat
  Gas : Option Nat
  GasPrice : Option (List Nat)
  Value : Option (List Nat)
  Input : Option (List Nat)
  Data : Option (List Nat)
  Nonce : Option Nat
deriving DecidableEq, Repr

/-- The backend capability interface exactly as eth_endpoint.go calls it
(blockchain.go declares GetPendingNonce and a three-valued GetAccount, but
the endpoint calls GetNonce and uses a two-valued GetAccount; the embedding
follows the call sites).  `getAccount` returns the Go pair of a possibly-nil
account and a possibly-nil error. -/
structure Backend where
  chainID : Nat
  header : Block
  getReceiptsByHash : Nat → Except String (List Receipt)
  getHeaderByNumber : Nat → Option Block
  getNonce : Nat → Option Nat
  getAccount : Nat → Nat → Option Account × Option String
  getStorage : Nat → Nat → Nat → Except String (List Nat)
  getCode : Nat → Except String (List Nat)
  getAvgGasPrice : Nat
  call : Txn → Block → Except String (List Nat)
  estimateGas : Txn → Option Block → Except String Nat
  getLogs : GetLogsInput → Except String (List Log)

/-- ethgo.BytesToHash (external library): value of the bytes, reduced to the
32-byte hash space; only forwards acc.CodeHash to getCode. -/
def bytesToHash (bs : List Nat) : Nat :=
  bytesToNat bs % 2 ^ 256

/-- The Eth endpoint; `getHash` stands for the external ethgo
Transaction.GetHash call at the end of decodeTxn. -/
structure Eth where
  b : Backend
  getHash : Txn → Except String Nat

/-- Go conversion uint64(n) of an int64: two's-complement wrap. -/
def intToUint64 (n : Int) : Nat :=
  (n % 2 ^ 64).toNat

/-- Eth.getBlockHeaderImpl from eth_endpoint.go. -/
def Eth.getBlockHeaderImpl (e : Eth) (number : Int) : Except String Block :=
  if number = LatestBlockNumber then .ok e.b.header
  else if number = EarliestBlockNumber then
    .error "fetching the earliest header is not supported"
  else if number = PendingBlockNumber then
    .error "fetching the pending header is not supported"
  else
    match e.b.getHeaderByNumber (intToUint64 number) with
    | some header => .ok header
    | none => .error ("Error fetching block number " ++ toString (intToUint64 number) ++ " header")

/-- Eth.getNextNonce from eth_endpoint.go: only the Pending tag consults the
transaction pool, and a pool miss flattens the tag to Latest.  In the
`(nil, nil)` GetAccount case the Go code dereferences a nil pointer (a
run-time panic); it is modelled as an error and no claim depends on it. -/
def Eth.getNextNonce (e : Eth) (address : Nat) (number : Int) : Except String Nat :=
  let fromPool : Option Nat :=
    if number = PendingBlockNumber then e.b.getNonce address else none
  match fromPool with
  | some res => .ok res
  | none =>
    let number := if number = PendingBlockNumber then LatestBlockNumber else number
    match e.getBlockHeaderImpl number with
    | .error err => .error err
    | .ok header =>
      match e.b.getAccount header.stateRoot address with
      | (_, some err) => .error err
      | (some acc, none) => .ok acc.nonce
      | (none, none) => .error "nil account dereference"

/-- Eth.GetBlockByNumber from eth_endpoint.go (`full` is accepted and
ignored, as in the source). -/
def Eth.GetBlockByNumber (e : Eth) (number : Int) (full : Bool) : Except String Block :=
  e.getBlockHeaderImpl number

/-- Eth.GetStorageAt from eth_endpoint.go. -/
def Eth.GetStorageAt (e : Eth) (address index : Nat) (number : Int) :
    Except String (List Nat) :=
  match e.getBlockHeaderImpl number with
  | .error err => .error err
  | .ok header => e.b.getStorage header.stateRoot address index

/-- Eth.GetBalance from eth_endpoint.go: a nil account with a nil error
yields a nil result (`.ok none`), mirroring `if acc == nil || err != nil`. -/
def Eth.GetBalance (e : Eth) (address : Nat) (number : Int) :
    Except String (Option Nat) :=
  match e.getBlockHeaderImpl number with
  | .error err => .error err
  | .ok header =>
    match e.b.getAccount header.stateRoot address with
    | (none, none) => .ok none
    | (_, some err) => .error err
    | (some acc, none) => .ok (some acc.balance)

/-- Eth.GetCode from eth_endpoint.go. -/
def Eth.GetCode (e : Eth) (address : Nat) (number : Int) :
    Except String (Option (List Nat)) :=
  match e.getBlockHeaderImpl number with
  | .error err => .error err
  | .ok header =>
    match e.b.getAccount header.stateRoot address with
    | (none, none) => .ok none
    | (_, some err) => .error err
    | (some acc, none) =>
      match e.b.getCode (bytesToHash acc.codeHash) with
      | .error err => .error err
      | .ok code => .ok (some code)

/-- Eth.GetTransactionCount from eth_endpoint.go. -/
def Eth.GetTransactionCount (e : Eth) (address : Nat) (number : Int) :
    Except String Nat :=
  e.getNextNonce address number

/-- The range resolution closure inside Eth.GetLogs: Pending and Earliest
flatten to Latest, Latest resolves to the head number, anything else is
converted with uint64(num). -/
def resolveNum (head : Nat) (num : Int) : Nat :=
  let num := if num = PendingBlockNumber ∨ num = EarliestBlockNumber then LatestBlockNumber else num
  if num = LatestBlockNumber then head else intToUint64 num

/-- Eth.GetLogs from eth_endpoint.go. -/
def Eth.GetLogs (e : Eth) (filterOptions : LogFilter) : Except String (List Log) :=
  let head := e.b.header
  match filterOptions.BlockHash with
  | some bh =>
    match e.b.getReceiptsByHash bh with
    | .error err => .error err
    | .ok receipts =>
      .ok (receipts.flatMap (fun receipt =>
        receipt.logs.filter (fun log => filterOptions.Match log)))
  | none =>
    let fromN := resolveNum head.number filterOptions.fromBlock
    let toN := resolveNum head.number filterOptions.toBlock
    if toN < fromN then .error "incorrect range"
    else
      e.b.getLogs ⟨fromN, toN, filterOptions.Addresses, filterOptions.Topics⟩

/-- The nonce-defaulting step of decodeTxn (eth_endpoint.go lines 317-324):
a missing nonce is resolved through getNextNonce at Latest and written back
into the record. -/
def decodeTxnNonce (e : Eth) (sender : Nat) (arg : TxnArgs) :
    TxnArgs × Except String Nat :=
  match arg.Nonce with
  | some n => (arg, .ok n)
  | none =>
    match e.getNextNonce sender LatestBlockNumber with
    | .error err => (arg, .error err)
    | .ok n => ({ arg with Nonce := some n }, .ok n)

/-- The Value and GasPrice defaulting steps of decodeTxn (eth_endpoint.go
lines 325-331). -/
def decodeTxnDefaults (e : Eth) (arg : TxnArgs) : TxnArgs :=
  let arg := if arg.Value.isNone then { arg with Value := some [] } else arg
  if arg.GasPrice.isNone then
    { arg with GasPrice := some (natToBytes e.b.getAvgGasPrice) }
  else arg

/-- The payload selection of decodeTxn (eth_endpoint.go lines 333-338):
Data wins over Input. -/
def txnPayload (arg : TxnArgs) : Option (List Nat) :=
  match arg.Data with
  | some d => some d
  | none => arg.Input

/-- The Gas defaulting step of decodeTxn (eth_endpoint.go lines 348-351). -/
def decodeTxnGas (arg : TxnArgs) : TxnArgs :=
  if arg.Gas.isNone then { arg with Gas := some 1000000 } else arg

/-- The transaction record built at the end of decodeTxn (the GasPrice
assignment is commented out in the source). -/
def buildTxn (sender : Nat) (arg : TxnArgs) (input : List Nat) : Txn :=
  { From := sender
    To := arg.To
    Gas := arg.Gas.getD 0
    Value := bytesToNat (arg.Value.getD [])
    Input := input
    Nonce := arg.Nonce.getD 0
    Hash := 0 }

/-- The tail of decodeTxn after the nonce step, on the threaded record. -/
def Eth.decodeTxnRest (e : Eth) (sender : Nat) :
    TxnArgs × Except String Nat → TxnArgs × Except String Txn
  | (arg1, .error err) => (arg1, .error err)
  | (arg1, .ok _) =>
    let arg3 := decodeTxnDefaults e arg1
    let inputBytes := txnPayload arg3
    if arg3.To.isNone ∧ inputBytes.isNone then
      (arg3, .error "contract creation without data provided")
    else
      let arg4 := decodeTxnGas arg3
      let txn := buildTxn sender arg4 (inputBytes.getD [])
      match e.getHash txn with
      | .error err => (arg4, .error err)
      | .ok h => (arg4, .ok { txn with Hash := h })

/-- Eth.decodeTxn from eth_endpoint.go.  The Go function mutates its pointer
argument; the embedding threads the record explicitly and returns the
post-mutation txnArgs together with the result. -/
def Eth.decodeTxn (e : Eth) (arg : TxnArgs) : TxnArgs × Except String Txn :=
  match arg.From with
  | none => (arg, .error "from is empty")
  | some sender =>
    if arg.Data.isSome ∧ arg.Input.isSome then
      (arg, .error "both input and data cannot be set")
    else
      e.decodeTxnRest sender (decodeTxnNonce e sender arg)

/-- Eth.Call from eth_endpoint.go, threading the mutated txnArgs. -/
def Eth.Call (e : Eth) (arg : TxnArgs) (number : Int) :
    TxnArgs × Except String (List Nat) :=
  match e.decodeTxn arg with
  | (arg1, .error err) => (arg1, .error err)
  | (arg1, .ok transaction) =>
    match e.getBlockHeaderImpl number with
    | .error err => (arg1, .error err)
    | .ok header =>
      match e.b.call transaction header with
      | .error err => (arg1, .error err)
      | .ok retValue => (arg1, .ok retValue)

/-- Eth.EstimateGas from eth_endpoint.go: the block-number argument is
accepted and ignored, and the backend is called with a nil header. -/
def Eth.EstimateGas (e : Eth) (arg : TxnArgs) (rawNum : Option Int) :
    TxnArgs × Except String Nat :=
  match e.decodeTxn arg with
  | (arg1, .error err) => (arg1, .error err)
  | (arg1, .ok transaction) =>
    match e.b.estimateGas transaction none with
    | .error err => (arg1, .error err)
    | .ok gas => (arg1, .ok gas)

/-- The range resolution exactly as C2 words it: Pending and Earliest are
flattened to Latest, Latest resolves to the backend head number, and an
absolute (non-negative) height resolves to itself. -/
def resolveNumSpec (head : Nat) (num : Int) : Nat :=
  let num := if num = PendingBlockNumber ∨ num = EarliestBlockNumber then LatestBlockNumber else num
  if num = LatestBlockNumber then head else num.toNat

/-- Eth.GetLogs as C2 words it: with a block hash, fetch that block's
receipts and return exactly the Match-ing logs; otherwise resolve the range
per `resolveNumSpec`, fail a reversed range with "incorrect range", and
delegate to the backend GetLogs with the resolved input record. -/
def getLogsSpec (e : Eth) (filterOptions : LogFilter) : Except String (List Log) :=
  match filterOptions.BlockHash with
  | some bh =>
    match e.b.getReceiptsByHash bh with
    | .error err => .error err
    | .ok receipts =>
      .ok (receipts.flatMap (fun receipt =>
        receipt.logs.filter (fun log => filterOptions.Match log)))
  | none =>
    let fromN := resolveNumSpec e.b.header.number filterOptions.fromBlock
    let toN := resolveNumSpec e.b.header.number filterOptions.toBlock
    if toN < fromN then .error "incorrect range"
    else
      e.b.getLogs ⟨fromN, toN, filterOptions.Addresses, filterOptions.Topics⟩

/-- A block-number value that BlockNumber unmarshalling can actually produce
on the wire: one of the three sentinels or an absolute int64 height. -/
def WireBlockNumber (n : Int) : Prop :=
  n = PendingBlockNumber ∨ n = EarliestBlockNumber ∨ n = LatestBlockNumber ∨
    (0 ≤ n ∧ n < 2 ^ 63)

instance (n : Int) : Decidable (WireBlockNumber n) := by
  unfold WireBlockNumber
  infer_instance

/-- A backend with no state, used to instantiate witnesses. -/
def nullBackend : Backend where
  chainID := 0
  header := ⟨10, 0, 0⟩
  getReceiptsByHash := fun _ => .ok []
  getHeaderByNumber := fun _ => none
  getNonce := fun _ => none
  getAccount := fun _ _ => (none, none)
  getStorage := fun _ _ _ => .ok []
  getCode := fun _ => .ok []
  getAvgGasPrice := 0
  call := fun _ _ => .ok []
  estimateGas := fun _ _ => .ok 0
  getLogs := fun _ => .ok []

/-- Witness endpoint over the null backend. -/
def nullEth : Eth :=
  ⟨nullBackend, fun _ => .ok 0⟩

/-- Backend whose transaction pool reports pending nonce 7 for every
address. -/
def poolBackend : Backend :=
  { nullBackend with getNonce := fun _ => some 7 }

/-- Endpoint over `poolBackend`; GetTransactionCount with Pending succeeds
here even though header resolution of Pending always fails. -/
def poolEth : Eth :=
  ⟨poolBackend, fun _ => .ok 0⟩

/-- Backend for the C10 counterexample: the pool pending nonce is 99 but the
state account nonce at the head is 5. -/
def nonceBackend : Backend :=
  { nullBackend with
      getNonce := fun _ => some 99
      getAccount := fun _ _ => (some ⟨5, 0, 0, []⟩, none) }

/-- Endpoint over `nonceBackend`. -/
def nonceEth : Eth :=
  ⟨nonceBackend, fun _ => .ok 0⟩

/-- txnArgs with From set, a Data payload, and no nonce. -/
def nonceArgs : TxnArgs :=
  ⟨some 1, some 2, none, some [9], none, none, some [1], none⟩

/-- The txnArgs record decodeTxn produces from `nonceArgs` over
`nonceBackend`. -/
def decodedNonceArgs : TxnArgs :=
  ⟨some 1, some 2, some 1000000, some [9], some [], none, some [1], some 5⟩

/-- The transaction decodeTxn produces from `nonceArgs` over
`nonceBackend`. -/
def decodedNonceTxn : Txn :=
  ⟨1, some 2, 1000000, 0, [1], 5, 0⟩

/-! ## Dispatcher (the reflective dispatcher in the unnamed source file)

The reflective parameter machinery is modelled by a JSON value type, a
decoded Go-value type, and per-parameter slots carrying the zero value that
`reflect.New` allocates and the decode function `json.Unmarshal` dispatches
to for that parameter type. -/

/-- A JSON value; numbers are integers, which suffices for this API. -/
inductive Json where
  | null
  | bool (b : Bool)
  | num (n : Int)
  | str (s : String)
  | arr (elems : List Json)
  | obj (fields : List (String × Json))

/-- A decoded Go parameter value. -/
inductive GoValue where
  | blockNum (n : Int)
  | bytes (bs : List Nat)
  | jsonVal (j : Json)

/-- One parameter slot: the zero value `reflect.New` allocates and the
decoder invoked on a present params element. -/
structure ParamSlot where
  zero : GoValue
  dec : GoValue → Json → Except String GoValue

/-- BlockNumber.UnmarshalJSON receives the raw sub-message bytes: a JSON
string arrives still quoted, a number as its decimal text; any other JSON
shape makes stringToBlockNumber fail to parse, modelled as a direct error. -/
def blockNumberDecode (j : Json) : Except String Int :=
  match j with
  | .str s => BlockNumber.UnmarshalJSON ('"' :: (s.toList ++ ['"']))
  | .num n => BlockNumber.UnmarshalJSON (toString n).toList
  | _ => .error "invalid block number"

/-- The parameter slot for a BlockNumber argument. -/
def blockNumberSlot : ParamSlot where
  zero := .blockNum 0
  dec := fun _ j => (blockNumberDecode j).map GoValue.blockNum

/-- The parameter slot for an argBytes argument: a JSON string goes through
argBytes.UnmarshalText on the freshly allocated zero receiver (whose error
result is always nil — see C6), null resets the slice, and any other JSON
shape is a decode error. -/
def argBytesSlot : ParamSlot where
  zero := .bytes []
  dec := fun cur j =>
    match j with
    | .str s =>
      let prev := match cur with | .bytes bs => bs | _ => []
      match argBytes.UnmarshalText prev s.toList with
      | (next, none) => .ok (.bytes next)
      | (_, some msg) => .error msg
    | .null => .ok (.bytes [])
    | _ => .error "cannot unmarshal into argBytes"

/-- funcData: the parameter slots and the invocation shim. -/
structure FuncData where
  slots : List ParamSlot
  call : List GoValue → Except String (Option Json)

/-- serviceData: the per-namespace method map. -/
structure ServiceData where
  funcMap : List (String × FuncData)

/-- The dispatcher's service registry. -/
structure Dispatcher where
  serviceMap : List (String × ServiceData)

/-- ErrorObject with the JSON-RPC code and message. -/
structure ErrorObject where
  code : Int
  message : String
deriving DecidableEq, Repr

/-- A parsed request envelope; params is the raw JSON array (none when the
field was absent from the envelope). -/
structure Request where
  method : String
  params : Option Json
  id : String

/-- The response envelope handleReq marshals. -/
structure Response where
  id : String
  jsonrpc : String
  result : Option Json

def invalidJSONRequest : ErrorObject :=
  ⟨-32600, "invalid json request"⟩

def internalError : ErrorObject :=
  ⟨-32603, "internal error"⟩

def invalidMethod (method : String) : ErrorObject :=
  ⟨-32601, "The method " ++ method ++ " does not exist/is not available"⟩

def invalidArguments (method : String) : ErrorObject :=
  ⟨-32602, "invalid arguments to " ++ method⟩

/-- strings.SplitN(method, "_", 2): the name before the first underscore and
everything after it; none when no underscore occurs. -/
def splitMethod : List Char → Option (List Char × List Char)
  | [] => none
  | '_' :: rest => some ([], rest)
  | c :: rest => (splitMethod rest).map (fun p => (c :: p.1, p.2))

/-- Dispatcher.getFnHandler: resolve namespace and method, -32601 on every
failure. -/
def Dispatcher.getFnHandler (d : Dispatcher) (req : Request) :
    Except ErrorObject FuncData :=
  match splitMethod req.method.toList with
  | none => .error (invalidMethod req.method)
  | some (serviceName, funcName) =>
    match d.serviceMap.lookup (String.mk serviceName) with
    | none => .error (invalidMethod req.method)
    | some service =>
      match service.funcMap.lookup (String.mk funcName) with
      | none => .error (invalidMethod req.method)
      | some fd => .ok fd

/-- The positional decode of json.Unmarshal(req.Params, &inputs) where
`inputs` holds one freshly allocated zero value per parameter: elements are
decoded pairwise; when the JSON array is shorter the remaining parameters
keep their zero values (encoding/json truncates the slice without error);
when it is longer the extra elements are decoded into interface values and
ignored (never an error for well-formed JSON). -/
def decodeZip : List ParamSlot → List Json → Except String (List GoValue)
  | [], _ => .ok []
  | s :: rest, [] => .ok ((s :: rest).map (fun slot => slot.zero))
  | s :: rest, j :: js =>
    match s.dec s.zero j with
    | .error msg => .error msg
    | .ok v =>
      match decodeZip rest js with
      | .error msg => .error msg
      | .ok vs => .ok (v :: vs)

/-- json.Unmarshal(req.Params, &inputs): absent params (a nil RawMessage)
and non-array params are decode errors; an array decodes per `decodeZip`. -/
def decodeParams (slots : List ParamSlot) (params : Option Json) :
    Except String (List GoValue) :=
  match params with
  | none => .error "unexpected end of JSON input"
  | some (.arr elems) => decodeZip slots elems
  | some _ => .error "json: cannot unmarshal value into slice"

/-- Dispatcher.handleReq after envelope parsing: resolve the handler, decode
params (failure is -32602 naming the method), invoke (a non-nil handler
error is logged and surfaced as the fixed -32603 object), marshal the
result into the response envelope.  Handler results are modelled as JSON
values, so the marshal step cannot fail here; its failure branch in the
source also returns the same -32603 object. -/
def Dispatcher.handleReq (d : Dispatcher) (req : Request) :
    Except ErrorObject Response :=
  match d.getFnHandler req with
  | .error e => .error e
  | .ok fd =>
    match decodeParams fd.slots req.params with
    | .error _ => .error (invalidArguments req.method)
    | .ok inputs =>
      match fd.call inputs with
      | .error _ => .error internalError
      | .ok res => .ok ⟨req.id, "2.0", res⟩

/-- A method taking one BlockNumber and echoing it, like mockService.Block
in the repository's dispatcher test. -/
def mockBlockFunc : FuncData where
  slots := [blockNumberSlot]
  call := fun args =>
    match args with
    | [.blockNum n] => .ok (some (.num n))
    | _ => .error "unexpected arguments"

/-- A method whose handler always returns a non-nil error. -/
def failFunc : FuncData where
  slots := []
  call := fun _ => .error "backend exploded"

/-- A registry with the two mock methods under the "mock" namespace. -/
def mockDispatcher : Dispatcher :=
  ⟨[("mock", ⟨[("block", mockBlockFunc), ("err", failFunc)]⟩)]⟩

/-! ## Filter manager (modelled from the spec) -/

/-- Modelled from the spec: the FilterManager implementation is code of this
repository that is not under src/ (only filter_manager_test.go is present).
A Filter record per §3/§4.E: subscription mode is a non-nil WebSocket
writer reference (`hasWSConn`), polling mode accumulates a delta buffer and
carries a last-access stamp. -/
structure Filter where
  hasWSConn : Bool
  updates : List Json
  lastAccess : Nat

/-- Modelled from the spec: the filter map of the manager plus the current
time used for last-access stamps. -/
structure FilterManager where
  filters : List (String × Filter)
  now : Nat

/-- The error filter_manager_test.go compares against ("filter does not
exist" per the spec's wording). -/
def errFilterDoesNotExists : String :=
  "filter does not exist"

/-- Modelled from the spec (§4.E GetFilterChanges): polling-mode only —
an unknown id or a subscription-mode id is "filter does not exist"; a
successful poll returns the accumulated batch, resets the filter's buffer
and refreshes its last-access stamp. -/
def FilterManager.GetFilterChanges (m : FilterManager) (id : String) :
    Except String (List Json × FilterManager) :=
  match m.filters.lookup id with
  | none => .error errFilterDoesNotExists
  | some f =>
    if f.hasWSConn then .error errFilterDoesNotExists
    else
      .ok (f.updates,
        FilterManager.mk
          (m.filters.map (fun kv => cond (kv.1 == id) (kv.1, Filter.mk false [] m.now) kv))
          m.now)

/-- A manager holding one subscription-mode filter "a" and one polling-mode
filter "b" with a buffered item, at time 5. -/
def wsFilterManager : FilterManager :=
  ⟨[("a", ⟨true, [], 0⟩), ("b", ⟨false, [.num 1], 0⟩)], 5⟩

end EthJsonRpc

namespace EthJsonRpc

/-- C1: `LogFilter.Match` succeeds exactly when the address constraint and
every positional topic-slot constraint hold, and a filter with more slots
than the log has topics never matches. -/
theorem logFilter_match_iff (l : LogFilter) (r : Log) :
    l.Match r = true ↔
      ((l.Addresses = [] ∨ r.address ∈ l.Addresses) ∧
        l.Topics.length ≤ r.topics.length ∧
        ∀ i, i < l.Topics.length →
          (l.Topics.getD i [] = [] ∨ r.topics.getD i 0 ∈ l.Topics.getD i [])) := by
  unfold LogFilter.Match
  constructor
  · intro h
    by_cases haddr : l.Addresses.length > 0
    · simp only [haddr, if_true] at h
      by_cases hany : l.Addresses.any (fun addr => addr == r.address) = true
      · simp only [hany] at h
        refine ⟨Or.inr ?_, ?_, ?_⟩
        · rcases List.any_eq_true.mp hany with ⟨a, ha, hb⟩
          exact (beq_iff_eq.mp hb) ▸ ha
        · by_contra hlen
          simp only [Nat.lt_of_not_le (fun hle => hlen hle), if_true] at h
          · exact Bool.false_ne_true h
        · intro i hi
          by_cases hlen : l.Topics.length > r.topics.length
          · simp only [hlen, if_true] at h
            exact absurd h Bool.false_ne_true
          · simp only [hlen, if_false] at h
            have := List.all_eq_true.mp h i (List.mem_range.mpr hi)
            simp only [Bool.or_eq_true, beq_iff_eq, List.any_eq_true] at this
            rcases this with hz | ⟨t, ht, he⟩
            · exact Or.inl (List.length_eq_zero.mp hz)
            · exact Or.inr (he ▸ ht)
      · simp only [Bool.not_eq_true] at hany
        simp only [hany] at h
        exact absurd h Bool.false_ne_true
    · simp only [haddr, if_false] at h
      refine ⟨Or.inl ?_, ?_, ?_⟩
      · exact List.length_eq_zero.mp (Nat.eq_zero_of_not_pos haddr)
      · by_contra hlen
        simp only [Nat.lt_of_not_le (fun hle => hlen hle), if_true] at h
        exact Bool.false_ne_true h
      · intro i hi
        by_cases hlen : l.Topics.length > r.topics.length
        · simp only [hlen, if_true] at h
          exact absurd h Bool.false_ne_true
        · simp only [hlen, if_false] at h
          have := List.all_eq_true.mp h i (List.mem_range.mpr hi)
          simp only [Bool.or_eq_true, beq_iff_eq, List.any_eq_true] at this
          rcases this with hz | ⟨t, ht, he⟩
          · exact Or.inl (List.length_eq_zero.mp hz)
          · exact Or.inr (he ▸ ht)
  · rintro ⟨haddr, hlen, htop⟩
    have haddrOk :
        (if l.Addresses.length > 0 then l.Addresses.any (fun addr => addr == r.address)
          else true) = true := by
      rcases haddr with hempty | hmem
      · simp [hempty]
      · by_cases hpos : l.Addresses.length > 0
        · simp only [hpos, if_true, List.any_eq_true]
          exact ⟨r.address, hmem, by simp⟩
        · simp [hpos]
    simp only [haddrOk, Bool.not_true, Bool.false_eq_true, if_false]
    have hnotgt : ¬ l.Topics.length > r.topics.length := Nat.not_lt.mpr hlen
    simp only [hnotgt, if_false]
    refine List.all_eq_true.mpr ?_
    intro i hi
    simp only [Bool.or_eq_true, beq_iff_eq, List.length_eq_zero, List.any_eq_true]
    rcases htop i (List.mem_range.mp hi) with hz | hmem
    · exact Or.inl hz
    · exact Or.inr ⟨r.topics.getD i 0, hmem, rfl⟩

/-! ## Codec lemmas -/

theorem digitVal?_toHexDigit {d : Nat} (hd : d < 16) : digitVal? 16 (toHexDigit d) = some d := by
  interval_cases d <;> rfl

theorem fromHexChar?_toHexDigit {d : Nat} (hd : d < 16) : fromHexChar? (toHexDigit d) = some d := by
  interval_cases d <;> rfl

theorem hexEncodeChars_length (bs : List Nat) : (hexEncodeChars bs).length = 2 * bs.length := by
  induction bs with
  | nil => rfl
  | cons b rest ih =>
    simp only [hexEncodeChars, List.flatMap_cons] at *
    simp [ih]
    omega

theorem hexDecode_hexEncode (bs : List Nat) (h : ∀ b ∈ bs, b < 256) :
    hexDecodeChars (hexEncodeChars bs) = .ok bs := by
  induction bs with
  | nil => rfl
  | cons b rest ih =>
    have hb : b < 256 := h b (List.mem_cons_self b rest)
    have hdiv : b / 16 < 16 := by omega
    have hmod : b % 16 < 16 := by omega
    have hrest := ih (fun x hx => h x (List.mem_cons_of_mem b hx))
    simp only [hexEncodeChars, List.flatMap_cons] at *
    simp only [List.cons_append, List.nil_append, hexDecodeChars,
      fromHexChar?_toHexDigit hdiv, fromHexChar?_toHexDigit hmod, hrest]
    have hb2 : b / 16 * 16 + b % 16 = b := by omega
    simp [Except.map, hb2, hrest]

theorem foldl_map_toHexDigit (ds : List Nat) (hd : ∀ d ∈ ds, d < 16) (a : Nat) :
    (ds.map toHexDigit).foldl
        (fun acc c => acc.bind (fun x => (digitVal? 16 c).map (fun d => x * 16 + d))) (some a) =
      some (ds.foldl (fun x d => x * 16 + d) a) := by
  induction ds generalizing a with
  | nil => rfl
  | cons d rest ih =>
    have h1 : d < 16 := hd d (List.mem_cons_self d rest)
    simp only [List.map_cons, List.foldl_cons, digitVal?_toHexDigit h1, Option.bind_some,
      Option.map_some]
    exact ih (fun x hx => hd x (List.mem_cons_of_mem d hx)) (a * 16 + d)

/-- The digit list whose big-endian hex rendering is `natToHex n`. -/
def hexDigitsOf (n : Nat) : List Nat :=
  if n = 0 then [0] else (Nat.digits 16 n).reverse

theorem natToHex_eq_map (n : Nat) : natToHex n = (hexDigitsOf n).map toHexDigit := by
  unfold natToHex hexDigitsOf
  by_cases h : n = 0
  · simp [h]
    rfl
  · simp [h, List.map_reverse]

theorem hexDigitsOf_lt (n : Nat) : ∀ d ∈ hexDigitsOf n, d < 16 := by
  unfold hexDigitsOf
  by_cases h : n = 0
  · simp [h]
  · simp only [h, if_false]
    intro d hd
    exact Nat.digits_lt_base (by norm_num) (List.mem_reverse.mp hd)

theorem hexDigitsOf_ne_nil (n : Nat) : hexDigitsOf n ≠ [] := by
  unfold hexDigitsOf
  by_cases h : n = 0
  · simp [h]
  · simp only [h, if_false]
    intro hcon
    exact h (by simpa [Nat.digits_eq_nil_iff_eq_zero] using List.reverse_eq_nil_iff.mp hcon)

theorem foldr_digits_eq_ofDigits (L : List Nat) :
    L.foldr (fun x y => y * 16 + x) 0 = Nat.ofDigits 16 L := by
  induction L with
  | nil => simp [Nat.ofDigits]
  | cons d rest ih =>
    simp only [List.foldr_cons, Nat.ofDigits_cons, ih]
    ring

theorem foldl16_hexDigitsOf (n : Nat) :
    (hexDigitsOf n).foldl (fun x d => x * 16 + d) 0 = n := by
  unfold hexDigitsOf
  by_cases h : n = 0
  · simp [h]
  · simp only [h, if_false, List.foldl_reverse]
    calc (Nat.digits 16 n).foldr (fun x y => y * 16 + x) 0
        = Nat.ofDigits 16 (Nat.digits 16 n) := foldr_digits_eq_ofDigits _
      _ = n := Nat.ofDigits_digits 16 n

theorem parseDigitsVal?_natToHex (n : Nat) : parseDigitsVal? 16 (natToHex n) = some n := by
  rw [natToHex_eq_map]
  unfold parseDigitsVal?
  rw [foldl_map_toHexDigit (hexDigitsOf n) (hexDigitsOf_lt n) 0, foldl16_hexDigitsOf]

theorem goParseUint_ok_lt {cs : List Char} {base v : Nat} (h : goParseUint cs base = .ok v) :
    v < 2 ^ 64 := by
  unfold goParseUint at h
  by_cases he : cs.isEmpty
  · simp [he] at h
  · simp only [he, if_false] at h
    cases hp : parseDigitsVal? base cs with
    | none => simp [hp] at h
    | some w =>
      simp only [hp] at h
      by_cases hw : w < 2 ^ 64
      · rw [if_pos hw] at h
        injection h with h2
        omega
      · rw [if_neg hw] at h
        simp at h

theorem parseUint64orHex_ok_lt {cs : List Char} {v : Nat}
    (h : parseUint64orHex cs = .ok v) : v < 2 ^ 64 := by
  unfold parseUint64orHex at h
  split at h
  · exact goParseUint_ok_lt h
  · exact goParseUint_ok_lt h

theorem natToHex_ne_nil (n : Nat) : natToHex n ≠ [] := by
  rw [natToHex_eq_map]
  intro hc
  exact hexDigitsOf_ne_nil n (List.map_eq_nil_iff.mp hc)

theorem argUint64_roundtrip (n : Nat) (h : n < 2 ^ 64) :
    argUint64.UnmarshalText (argUint64.MarshalText n) = .ok n := by
  unfold argUint64.UnmarshalText argUint64.MarshalText
  rw [show trimPrefix0x ('0' :: 'x' :: natToHex n) = natToHex n from rfl]
  unfold goParseUint
  have hempty : (natToHex n).isEmpty = false := by
    cases hx : natToHex n with
    | nil => exact absurd hx (natToHex_ne_nil n)
    | cons a l => rfl
  rw [hempty]
  simp only [Bool.false_eq_true, if_false]
  rw [parseDigitsVal?_natToHex]
  simp only []
  rw [if_pos (show n < 2 ^ 64 from h)]

theorem hexDecodeChars_map_toHexDigit :
    ∀ (ds : List Nat), (∀ d ∈ ds, d < 16) → ds.length % 2 = 0 →
      ∃ bs, hexDecodeChars (ds.map toHexDigit) = .ok bs ∧
        ∀ a : Nat, bs.foldl (fun x b => x * 256 + b) a = ds.foldl (fun x d => x * 16 + d) a
  | [], _, _ => ⟨[], rfl, fun _ => rfl⟩
  | [d], _, hlen => by simp at hlen
  | d1 :: d2 :: rest, hd, hlen => by
    have h1 : d1 < 16 := hd d1 (by simp)
    have h2 : d2 < 16 := hd d2 (by simp)
    have hrestlen : rest.length % 2 = 0 := by
      simp only [List.length_cons] at hlen
      omega
    obtain ⟨bs, hbs, hfold⟩ :=
      hexDecodeChars_map_toHexDigit rest (fun x hx => hd x (by simp [hx])) hrestlen
    refine ⟨(d1 * 16 + d2) :: bs, ?_, ?_⟩
    · simp only [List.map_cons, hexDecodeChars, fromHexChar?_toHexDigit h1,
        fromHexChar?_toHexDigit h2, hbs]
      rfl
    · intro a
      simp only [List.foldl_cons]
      rw [hfold]
      congr 1
      ring

theorem decodeToHex_0x_map (ds : List Nat) (hd : ∀ d ∈ ds, d < 16) :
    ∃ bs, decodeToHex ('0' :: 'x' :: ds.map toHexDigit) = .ok bs ∧
      bytesToNat bs = ds.foldl (fun x d => x * 16 + d) 0 := by
  unfold decodeToHex
  rw [show trimPrefix0x ('0' :: 'x' :: ds.map toHexDigit) = ds.map toHexDigit from rfl]
  unfold padOdd
  by_cases hpar : (ds.map toHexDigit).length % 2 ≠ 0
  · rw [if_pos hpar]
    have hlen : (0 :: ds).length % 2 = 0 := by
      simp only [List.length_map] at hpar
      simp only [List.length_cons]
      omega
    have hd' : ∀ d ∈ 0 :: ds, d < 16 := by
      intro d hdm
      rcases List.mem_cons.mp hdm with rfl | hdm
      · norm_num
      · exact hd d hdm
    obtain ⟨bs, hbs, hfold⟩ := hexDecodeChars_map_toHexDigit (0 :: ds) hd' hlen
    refine ⟨bs, ?_, ?_⟩
    · rw [← hbs]
      rfl
    · unfold bytesToNat
      rw [hfold 0]
      simp
  · rw [if_neg hpar]
    push_neg at hpar
    have hlen : ds.length % 2 = 0 := by
      simpa using hpar
    obtain ⟨bs, hbs, hfold⟩ := hexDecodeChars_map_toHexDigit ds hd hlen
    exact ⟨bs, hbs, hfold 0⟩

theorem argBig_roundtrip (n : Nat) :
    argBig.UnmarshalText (argBig.MarshalText n) = .ok n := by
  unfold argBig.UnmarshalText argBig.MarshalText
  rw [natToHex_eq_map]
  obtain ⟨bs, hbs, hval⟩ := decodeToHex_0x_map (hexDigitsOf n) (hexDigitsOf_lt n)
  rw [hbs]
  rw [show Except.map bytesToNat (Except.ok bs : Except String (List Nat)) =
    Except.ok (bytesToNat bs) from rfl]
  rw [hval, foldl16_hexDigitsOf]

theorem argBytes_roundtrip (bs : List Nat) (h : ∀ b ∈ bs, b < 256) (prev : List Nat) :
    argBytes.UnmarshalText prev (argBytes.MarshalText bs) = (bs, none) := by
  unfold argBytes.UnmarshalText argBytes.MarshalText encodeToHex padOdd
  have heven : ¬ (hexEncodeChars bs).length % 2 ≠ 0 := by
    rw [hexEncodeChars_length]
    omega
  rw [if_neg heven]
  unfold decodeToHex padOdd
  rw [show trimPrefix0x ('0' :: 'x' :: hexEncodeChars bs) = hexEncodeChars bs from rfl]
  rw [if_neg heven]
  rw [hexDecode_hexEncode bs h]

end EthJsonRpc

namespace EthJsonRpc

/-- C8: round-trip of the hex-scalar codecs — for every uint64 value, every
non-negative big integer, and every byte string, unmarshalling the marshalled
text yields the value again. -/
theorem codec_round_trip :
    (∀ n : Nat, n < 2 ^ 64 → argUint64.UnmarshalText (argUint64.MarshalText n) = .ok n) ∧
    (∀ n : Nat, argBig.UnmarshalText (argBig.MarshalText n) = .ok n) ∧
    (∀ bs : List Nat, (∀ b ∈ bs, b < 256) → ∀ prev,
      argBytes.UnmarshalText prev (argBytes.MarshalText bs) = (bs, none)) :=
  ⟨argUint64_roundtrip, argBig_roundtrip, argBytes_roundtrip⟩

/-- Witness for C8 at concrete values 255, 291 and [0, 255]. -/
theorem codec_round_trip_witness :
    argUint64.UnmarshalText (argUint64.MarshalText 255) = .ok 255 ∧
    argBig.UnmarshalText (argBig.MarshalText 291) = .ok 291 ∧
    argBytes.UnmarshalText [7] (argBytes.MarshalText [0, 255]) = ([0, 255], none) :=
  ⟨codec_round_trip.1 255 (by norm_num),
   codec_round_trip.2.1 291,
   codec_round_trip.2.2 [0, 255] (by norm_num) [7]⟩

/-- C6 (code bug): a malformed hex string handed to argBytes.UnmarshalText is
NOT rejected — decodeToHex fails, but the method returns `nil` (types.go line
77, `return nil` where `return err` is clearly intended, as every sibling
codec returns `err`), so the argument silently keeps its previous value and
the enclosing request does not fail with "invalid arguments". -/
theorem argBytes_unmarshal_swallows_error :
    (∃ msg, decodeToHex "0xzz".toList = .error msg) ∧
    argBytes.UnmarshalText [1, 2] "0xzz".toList = ([1, 2], none) :=
  ⟨⟨"encoding/hex: invalid byte", by rfl⟩, by rfl⟩

/-- C7 counterexample: the wire string "0xffffffffffffffff" is accepted by
BlockNumber unmarshalling and decodes to -1 — the Earliest sentinel — because
`BlockNumber(n)` wraps the parsed uint64 into int64; the claim asserts every
accepted non-keyword input maps to a height ≥ 0. -/
theorem blockNumber_wrap_counterexample :
    BlockNumber.UnmarshalJSON "\"0xffffffffffffffff\"".toList = .ok EarliestBlockNumber := by
  rfl

/-- C7 (amended): "earliest"/"latest"/"pending" map to -1, -2, -3 and the empty
string is rejected, as claimed; every other accepted wire input — 0x-prefixed
hex or decimal — parses as a uint64 n < 2^64 and decodes to the int64 wrap of
n: heights below 2^63 map to themselves (≥ 0), while inputs at or above 2^63
wrap to negative values, possibly colliding with the sentinels. -/
theorem blockNumber_decode_amended :
    BlockNumber.UnmarshalJSON "\"earliest\"".toList = .ok (-1) ∧
    BlockNumber.UnmarshalJSON "\"latest\"".toList = .ok (-2) ∧
    BlockNumber.UnmarshalJSON "\"pending\"".toList = .ok (-3) ∧
    (∃ msg, BlockNumber.UnmarshalJSON "".toList = .error msg) ∧
    (∀ s b, stringToBlockNumber s = .ok b →
      b = EarliestBlockNumber ∨ b = LatestBlockNumber ∨ b = PendingBlockNumber ∨
        ∃ n, n < 2 ^ 64 ∧ parseUint64orHex (trimQuotes s) = .ok n ∧ b = toInt64 n ∧
          (n < 2 ^ 63 → 0 ≤ b) ∧ (2 ^ 63 ≤ n → b < 0)) := by
  refine ⟨by rfl, by rfl, by rfl, ⟨"value is empty", by rfl⟩, ?_⟩
  intro s b h
  unfold stringToBlockNumber at h
  by_cases he : s.isEmpty
  · rw [if_pos he] at h
    exact absurd h (by simp)
  · rw [if_neg he] at h
    by_cases hp : trimQuotes s = "pending".toList
    · rw [if_pos hp] at h
      right; right; left
      injection h with h
      omega
    · rw [if_neg hp] at h
      by_cases hl : trimQuotes s = "latest".toList
      · rw [if_pos hl] at h
        right; left
        injection h with h
        omega
      · rw [if_neg hl] at h
        by_cases hear : trimQuotes s = "earliest".toList
        · rw [if_pos hear] at h
          left
          injection h with h
          omega
        · rw [if_neg hear] at h
          cases hparse : parseUint64orHex (trimQuotes s) with
          | error msg =>
            rw [hparse] at h
            exact absurd h (by simp [Except.map])
          | ok n =>
            rw [hparse] at h
            have hb : b = toInt64 n := by
              simp only [Except.map, Except.ok.injEq] at h
              omega
            have hn : n < 2 ^ 64 := parseUint64orHex_ok_lt hparse
            refine Or.inr (Or.inr (Or.inr ⟨n, hn, rfl, hb, ?_, ?_⟩))
            · intro hlt
              rw [hb]
              unfold toInt64
              rw [if_pos hlt]
              exact Int.natCast_nonneg n
            · intro hge
              rw [hb]
              unfold toInt64
              rw [if_neg (by omega)]
              have : (n : Int) < 2 ^ 64 := by exact_mod_cast hn
              omega

/-! ## Eth endpoint lemmas -/

theorem resolveNum_eq_spec (head : Nat) (n : Int) (h : WireBlockNumber n) :
    resolveNum head n = resolveNumSpec head n := by
  unfold resolveNum resolveNumSpec
  by_cases hc : n = PendingBlockNumber ∨ n = EarliestBlockNumber
  · simp [hc]
  · simp only [hc, if_false]
    by_cases hl : n = LatestBlockNumber
    · simp [hl]
    · simp only [hl, if_false]
      unfold intToUint64
      rcases h with h | h | h | ⟨h0, h63⟩
      · exact absurd (Or.inl h) hc
      · exact absurd (Or.inr h) hc
      · exact absurd h hl
      · unfold PendingBlockNumber EarliestBlockNumber LatestBlockNumber at *
        omega

theorem decodeTxnNonce_ok {e : Eth} {sender : Nat} {arg arg1 : TxnArgs} {k : Nat}
    (h : decodeTxnNonce e sender arg = (arg1, .ok k)) :
    arg1.From = arg.From ∧ arg1.To = arg.To ∧ arg1.Gas = arg.Gas ∧
    arg1.GasPrice = arg.GasPrice ∧ arg1.Value = arg.Value ∧
    arg1.Input = arg.Input ∧ arg1.Data = arg.Data ∧
    arg1.Nonce = some k ∧
    (arg.Nonce = some k ∨
      (arg.Nonce = none ∧ e.getNextNonce sender LatestBlockNumber = .ok k)) := by
  unfold decodeTxnNonce at h
  cases hn : arg.Nonce with
  | some n =>
    rw [hn] at h
    simp only [Prod.mk.injEq, Except.ok.injEq] at h
    obtain ⟨rfl, rfl⟩ := h
    exact ⟨rfl, rfl, rfl, rfl, rfl, rfl, rfl, hn, Or.inl rfl⟩
  | none =>
    rw [hn] at h
    simp only [] at h
    cases hg : e.getNextNonce sender LatestBlockNumber with
    | error err =>
      rw [hg] at h
      simp at h
    | ok n =>
      rw [hg] at h
      simp only [Prod.mk.injEq, Except.ok.injEq] at h
      obtain ⟨rfl, rfl⟩ := h
      exact ⟨rfl, rfl, rfl, rfl, rfl, rfl, rfl, rfl, Or.inr ⟨rfl, rfl⟩⟩

theorem decodeTxnDefaults_fields (e : Eth) (arg : TxnArgs) :
    (decodeTxnDefaults e arg).From = arg.From ∧
    (decodeTxnDefaults e arg).To = arg.To ∧
    (decodeTxnDefaults e arg).Gas = arg.Gas ∧
    (decodeTxnDefaults e arg).Input = arg.Input ∧
    (decodeTxnDefaults e arg).Data = arg.Data ∧
    (decodeTxnDefaults e arg).Nonce = arg.Nonce ∧
    (decodeTxnDefaults e arg).Value = some (arg.Value.getD []) ∧
    (decodeTxnDefaults e arg).GasPrice =
      some (arg.GasPrice.getD (natToBytes e.b.getAvgGasPrice)) := by
  unfold decodeTxnDefaults
  cases hv : arg.Value <;> cases hg : arg.GasPrice <;> simp [hv, hg]

theorem decodeTxnGas_fields (arg : TxnArgs) :
    (decodeTxnGas arg).From = arg.From ∧
    (decodeTxnGas arg).To = arg.To ∧
    (decodeTxnGas arg).GasPrice = arg.GasPrice ∧
    (decodeTxnGas arg).Value = arg.Value ∧
    (decodeTxnGas arg).Input = arg.Input ∧
    (decodeTxnGas arg).Data = arg.Data ∧
    (decodeTxnGas arg).Nonce = arg.Nonce ∧
    (decodeTxnGas arg).Gas = some (arg.Gas.getD 1000000) := by
  unfold decodeTxnGas
  cases hg : arg.Gas <;> simp [hg]

theorem decodeTxn_ok_shape {e : Eth} {arg arg1 : TxnArgs} {txn : Txn}
    (h : e.decodeTxn arg = (arg1, .ok txn)) :
    ∃ sender argN k, arg.From = some sender ∧
      decodeTxnNonce e sender arg = (argN, .ok k) ∧
      arg1 = decodeTxnGas (decodeTxnDefaults e argN) := by
  unfold Eth.decodeTxn at h
  cases hfrom : arg.From with
  | none =>
    rw [hfrom] at h
    simp at h
  | some sender =>
    rw [hfrom] at h
    simp only [] at h
    by_cases hdi : arg.Data.isSome ∧ arg.Input.isSome
    · rw [if_pos hdi] at h
      simp at h
    · rw [if_neg hdi] at h
      cases hstep : decodeTxnNonce e sender arg with
      | mk argN res =>
        rw [hstep] at h
        cases res with
        | error err =>
          simp only [Eth.decodeTxnRest] at h
          simp at h
        | ok k =>
          simp only [Eth.decodeTxnRest] at h
          by_cases hto :
              (decodeTxnDefaults e argN).To.isNone ∧
                (txnPayload (decodeTxnDefaults e argN)).isNone
          · rw [if_pos hto] at h
            simp at h
          · rw [if_neg hto] at h
            cases hh : e.getHash (buildTxn sender (decodeTxnGas (decodeTxnDefaults e argN))
                ((txnPayload (decodeTxnDefaults e argN)).getD [])) with
            | error err =>
              rw [hh] at h
              simp at h
            | ok hv =>
              rw [hh] at h
              simp only [Prod.mk.injEq, Except.ok.injEq] at h
              exact ⟨sender, argN, k, rfl, hstep, h.1.symm⟩

end EthJsonRpc

namespace EthJsonRpc

/-- C2: Eth.GetLogs coincides with the claim's description for every filter
whose range fields are wire-producible block numbers: with a block hash it
returns exactly the Match-ing logs of that block's receipts (the range is
ignored), otherwise it resolves the range (Pending and Earliest flattened to
Latest, Latest to the backend head number), rejects to < from with
"incorrect range", and delegates to the backend GetLogs with the resolved
input record. -/
theorem eth_getLogs_refines_spec (e : Eth) (fo : LogFilter)
    (hfrom : WireBlockNumber fo.fromBlock) (hto : WireBlockNumber fo.toBlock) :
    e.GetLogs fo = getLogsSpec e fo := by
  cases hbh : fo.BlockHash with
  | some bh => simp [Eth.GetLogs, getLogsSpec, hbh]
  | none =>
    simp only [Eth.GetLogs, getLogsSpec, hbh]
    rw [resolveNum_eq_spec _ _ hfrom, resolveNum_eq_spec _ _ hto]

/-- Witness for C2 at the null backend and an all-Latest filter. -/
theorem eth_getLogs_refines_spec_witness :
    nullEth.GetLogs ⟨none, LatestBlockNumber, LatestBlockNumber, [], []⟩ =
      getLogsSpec nullEth ⟨none, LatestBlockNumber, LatestBlockNumber, [], []⟩ :=
  eth_getLogs_refines_spec nullEth ⟨none, LatestBlockNumber, LatestBlockNumber, [], []⟩
    (Or.inr (Or.inr (Or.inl rfl))) (Or.inr (Or.inr (Or.inl rfl)))

/-- C3 counterexample: GetTransactionCount with the Pending tag does NOT fail
with a "not supported" error — over a backend whose pool reports nonce 7 it
succeeds, because getNextNonce consults the pool first and would otherwise
flatten Pending to Latest; the claim asserts Pending fails for every
header-resolving operation including getTransactionCount. -/
theorem getTransactionCount_pending_counterexample :
    poolEth.GetTransactionCount 1 PendingBlockNumber = .ok 7 := by
  rfl

/-- C3 (amended): the shared policy — Latest resolves to the backend head,
Earliest and Pending fail with the "not supported" errors, an absolute height
resolves via backend lookup and fails when not found; getBlockByNumber is
exactly the resolved header, and getBalance, getCode, getStorageAt, call
(once its txnArgs decode succeeded) and getTransactionCount propagate every
resolution error — except that getTransactionCount with Pending first
consults the transaction-pool nonce and otherwise falls back to Latest
instead of failing. -/
theorem header_resolution_policy_amended (e : Eth) (address index : Nat) (n : Int)
    (full : Bool) (arg : TxnArgs) :
    (e.getBlockHeaderImpl LatestBlockNumber = .ok e.b.header) ∧
    (e.getBlockHeaderImpl EarliestBlockNumber =
      .error "fetching the earliest header is not supported") ∧
    (e.getBlockHeaderImpl PendingBlockNumber =
      .error "fetching the pending header is not supported") ∧
    (∀ m : Int, 0 ≤ m →
      e.getBlockHeaderImpl m =
        match e.b.getHeaderByNumber (intToUint64 m) with
        | some header => .ok header
        | none =>
          .error ("Error fetching block number " ++ toString (intToUint64 m) ++ " header")) ∧
    (e.GetBlockByNumber n full = e.getBlockHeaderImpl n) ∧
    (∀ msg, e.getBlockHeaderImpl n = .error msg →
      e.GetBalance address n = .error msg ∧
      e.GetCode address n = .error msg ∧
      e.GetStorageAt address index n = .error msg ∧
      (∀ arg1 txn, e.decodeTxn arg = (arg1, .ok txn) → (e.Call arg n).2 = .error msg) ∧
      (n ≠ PendingBlockNumber → e.GetTransactionCount address n = .error msg)) ∧
    (∀ p, e.b.getNonce address = some p →
      e.GetTransactionCount address PendingBlockNumber = .ok p) := by
  refine ⟨by rfl, by rfl, by rfl, ?_, by rfl, ?_, ?_⟩
  · intro m hm
    unfold Eth.getBlockHeaderImpl
    rw [if_neg (by unfold LatestBlockNumber; omega),
      if_neg (by unfold EarliestBlockNumber; omega),
      if_neg (by unfold PendingBlockNumber; omega)]
  · intro msg hmsg
    refine ⟨?_, ?_, ?_, ?_, ?_⟩
    · unfold Eth.GetBalance
      rw [hmsg]
    · unfold Eth.GetCode
      rw [hmsg]
    · unfold Eth.GetStorageAt
      rw [hmsg]
    · intro arg1 txn hdec
      unfold Eth.Call
      rw [hdec, hmsg]
    · intro hnp
      simp only [Eth.GetTransactionCount, Eth.getNextNonce, hnp, if_false]
      rw [hmsg]
  · intro p hp
    simp [Eth.GetTransactionCount, Eth.getNextNonce, hp]

/-- Witness for C3's amended theorem: GetBalance at the Earliest tag fails
with the "not supported" resolution error on the null backend. -/
theorem header_resolution_policy_amended_witness :
    nullEth.GetBalance 1 EarliestBlockNumber =
      .error "fetching the earliest header is not supported" :=
  ((header_resolution_policy_amended nullEth 1 0 EarliestBlockNumber false
      ⟨none, none, none, none, none, none, none, none⟩).2.2.2.2.2.1
    "fetching the earliest header is not supported" (by rfl)).1

/-- C10 counterexample: with a missing nonce, decodeTxn writes back the STATE
account nonce obtained through getNextNonce at Latest (here 5), not the
transaction-pool pending nonce (here 99) — refuting the claim's "Nonce via
the pending-nonce path". -/
theorem decodeTxn_nonce_counterexample :
    (nonceEth.decodeTxn nonceArgs).1.Nonce = some 5 ∧
      nonceEth.b.getNonce 1 = some 99 :=
  ⟨by rfl, by rfl⟩

/-- C10 (amended): Call and EstimateGas thread their txnArgs through
decodeTxn and expose the mutated record; on a successful decode the record
keeps From, To, Data and Input unchanged, and fills each absent field with
its resolved default: Gas 1,000,000, Value empty bytes, GasPrice the backend
average gas price bytes, and Nonce the getNextNonce(from, Latest) value —
the state account nonce at the head, not the pool pending nonce. -/
theorem txnargs_normalization_amended (e : Eth) (arg arg1 : TxnArgs) (txn : Txn)
    (number : Int) (rawNum : Option Int)
    (h : e.decodeTxn arg = (arg1, .ok txn)) :
    (e.Call arg number).1 = arg1 ∧
    (e.EstimateGas arg rawNum).1 = arg1 ∧
    arg1.From = arg.From ∧
    arg1.To = arg.To ∧
    arg1.Data = arg.Data ∧
    arg1.Input = arg.Input ∧
    arg1.Gas = some (arg.Gas.getD 1000000) ∧
    arg1.Value = some (arg.Value.getD []) ∧
    arg1.GasPrice = some (arg.GasPrice.getD (natToBytes e.b.getAvgGasPrice)) ∧
    (∃ sender k, arg.From = some sender ∧ arg1.Nonce = some k ∧
      (arg.Nonce = some k ∨
        (arg.Nonce = none ∧ e.getNextNonce sender LatestBlockNumber = .ok k))) := by
  have hCall : (e.Call arg number).1 = arg1 := by
    unfold Eth.Call
    rw [h]
    show (match e.getBlockHeaderImpl number with
      | .error err => (arg1, Except.error err)
      | .ok header =>
        match e.b.call txn header with
        | .error err => (arg1, .error err)
        | .ok retValue => (arg1, .ok retValue)).1 = arg1
    cases e.getBlockHeaderImpl number with
    | error err => rfl
    | ok header =>
      show (match e.b.call txn header with
        | .error err => (arg1, Except.error err)
        | .ok retValue => (arg1, .ok retValue)).1 = arg1
      cases e.b.call txn header with
      | error err => rfl
      | ok retValue => rfl
  have hEst : (e.EstimateGas arg rawNum).1 = arg1 := by
    unfold Eth.EstimateGas
    rw [h]
    show (match e.b.estimateGas txn none with
      | .error err => (arg1, Except.error err)
      | .ok gas => (arg1, .ok gas)).1 = arg1
    cases e.b.estimateGas txn none with
    | error err => rfl
    | ok gas => rfl
  obtain ⟨sender, argN, k, hfrom, hstep, harg1⟩ := decodeTxn_ok_shape h
  obtain ⟨nFrom, nTo, nGas, nGasPrice, nValue, nInput, nData, nNonce, hsrc⟩ :=
    decodeTxnNonce_ok hstep
  obtain ⟨dFrom, dTo, dGas, dInput, dData, dNonce, dValue, dGasPrice⟩ :=
    decodeTxnDefaults_fields e argN
  obtain ⟨gFrom, gTo, gGasPrice, gValue, gInput, gData, gNonce, gGas⟩ :=
    decodeTxnGas_fields (decodeTxnDefaults e argN)
  subst harg1
  refine ⟨hCall, hEst, ?_, ?_, ?_, ?_, ?_, ?_, ?_, sender, k, hfrom, ?_, hsrc⟩
  · rw [gFrom, dFrom, nFrom]
  · rw [gTo, dTo, nTo]
  · rw [gData, dData, nData]
  · rw [gInput, dInput, nInput]
  · rw [gGas, dGas, nGas]
  · rw [gValue, dValue, nValue]
  · rw [gGasPrice, dGasPrice, nGasPrice]
  · rw [gNonce, dNonce, nNonce]

/-- Witness for the amended C7 theorem at the concrete input "0x10". -/
theorem blockNumber_decode_amended_witness :

    (16 : Int) = EarliestBlockNumber ∨ (16 : Int) = LatestBlockNumber ∨
      (16 : Int) = PendingBlockNumber ∨
      ∃ n, n < 2 ^ 64 ∧ parseUint64orHex (trimQuotes "\"0x10\"".toList) = .ok n ∧
        (16 : Int) = toInt64 n ∧ (n < 2 ^ 63 → 0 ≤ (16 : Int)) ∧ (2 ^ 63 ≤ n → (16 : Int) < 0) :=
  blockNumber_decode_amended.2.2.2.2 "\"0x10\"".toList 16 (by rfl)

/-- Witness for C10's amended theorem at the concrete nonce scenario. -/
theorem txnargs_normalization_amended_witness :
    (nonceEth.Call nonceArgs LatestBlockNumber).1 = decodedNonceArgs ∧
    (nonceEth.EstimateGas nonceArgs none).1 = decodedNonceArgs ∧
    decodedNonceArgs.From = nonceArgs.From ∧
    decodedNonceArgs.To = nonceArgs.To ∧
    decodedNonceArgs.Data = nonceArgs.Data ∧
    decodedNonceArgs.Input = nonceArgs.Input ∧
    decodedNonceArgs.Gas = some (nonceArgs.Gas.getD 1000000) ∧
    decodedNonceArgs.Value = some (nonceArgs.Value.getD []) ∧
    decodedNonceArgs.GasPrice =
      some (nonceArgs.GasPrice.getD (natToBytes nonceEth.b.getAvgGasPrice)) ∧
    (∃ sender k, nonceArgs.From = some sender ∧ decodedNonceArgs.Nonce = some k ∧
      (nonceArgs.Nonce = some k ∨
        (nonceArgs.Nonce = none ∧
          nonceEth.getNextNonce sender LatestBlockNumber = .ok k))) :=
  txnargs_normalization_amended nonceEth nonceArgs decodedNonceArgs decodedNonceTxn
    LatestBlockNumber none (by rfl)

/-! ## Dispatcher theorems -/

/-- C4: whenever the resolved handler returns a non-nil error, handleReq
answers with the fixed -32603 "internal error" object; the handler's error
text is absent from the response (the response is a constant independent of
that text, which is only written to the local log). -/
theorem dispatcher_internal_error_sanitized (d : Dispatcher) (req : Request)
    (fd : FuncData) (args : List GoValue) (msg : String)
    (hfd : d.getFnHandler req = .ok fd)
    (hargs : decodeParams fd.slots req.params = .ok args)
    (hcall : fd.call args = .error msg) :
    d.handleReq req = .error internalError ∧
    internalError.code = -32603 ∧ internalError.message = "internal error" := by
  refine ⟨?_, rfl, rfl⟩
  unfold Dispatcher.handleReq
  rw [hfd]
  show (match decodeParams fd.slots req.params with
    | .error _ => Except.error (invalidArguments req.method)
    | .ok inputs =>
      match fd.call inputs with
      | .error _ => .error internalError
      | .ok res => .ok (Response.mk req.id "2.0" res)) = .error internalError
  rw [hargs]
  show (match fd.call args with
    | .error _ => Except.error internalError
    | .ok res => .ok (Response.mk req.id "2.0" res)) = .error internalError
  rw [hcall]

/-- Witness for C4: the mock_err handler fails, and the response is the
fixed internal-error object. -/
theorem dispatcher_internal_error_sanitized_witness :
    mockDispatcher.handleReq ⟨"mock_err", some (.arr []), "1"⟩ = .error internalError ∧
    internalError.code = -32603 ∧ internalError.message = "internal error" :=
  dispatcher_internal_error_sanitized mockDispatcher ⟨"mock_err", some (.arr []), "1"⟩
    failFunc [] "backend exploded" (by rfl) (by rfl) (by rfl)

/-- C5 counterexample: wrong arity is NOT rejected — calling mock_block (one
BlockNumber parameter) with an empty params array succeeds with the handler
receiving the zero value BlockNumber(0), where the claim demands a -32602
rejection. -/
theorem dispatcher_arity_counterexample :
    mockDispatcher.handleReq ⟨"mock_block", some (.arr []), "1"⟩ =
      .ok ⟨"1", "2.0", some (.num 0)⟩ := by
  rfl

/-- C5 (amended): a params element that fails to decode rejects the request
with -32602 "invalid arguments to <method>" (failures propagate from any
position), but arity is not checked: a params array shorter than the
parameter list leaves the missing trailing parameters at their zero values
and extra elements are ignored. -/
theorem dispatcher_param_decode_amended (d : Dispatcher) (req : Request)
    (fd : FuncData) (emsg : String)
    (hfd : d.getFnHandler req = .ok fd)
    (hargs : decodeParams fd.slots req.params = .error emsg) :
    d.handleReq req = .error (invalidArguments req.method) ∧
    (∀ (slot : ParamSlot) (rest : List ParamSlot) (j : Json) (js : List Json) (m : String),
      slot.dec slot.zero j = .error m → decodeZip (slot :: rest) (j :: js) = .error m) ∧
    (∀ (slot : ParamSlot) (rest : List ParamSlot) (j : Json) (js : List Json)
        (v : GoValue) (m : String),
      slot.dec slot.zero j = .ok v → decodeZip rest js = .error m →
        decodeZip (slot :: rest) (j :: js) = .error m) ∧
    (∀ slots : List ParamSlot, decodeZip slots [] = .ok (slots.map (fun slot => slot.zero))) ∧
    (∀ js : List Json, decodeZip [] js = .ok []) := by
  refine ⟨?_, ?_, ?_, ?_, ?_⟩
  · unfold Dispatcher.handleReq
    rw [hfd]
    show (match decodeParams fd.slots req.params with
      | .error _ => Except.error (invalidArguments req.method)
      | .ok inputs =>
        match fd.call inputs with
        | .error _ => .error internalError
        | .ok res => .ok (Response.mk req.id "2.0" res)) = .error (invalidArguments req.method)
    rw [hargs]
  · intro slot rest j js m hdec
    unfold decodeZip
    rw [hdec]
  · intro slot rest j js v m hdec hrest
    unfold decodeZip
    rw [hdec]
    show (match decodeZip rest js with
      | .error msg => Except.error msg
      | .ok vs => .ok (v :: vs)) = .error m
    rw [hrest]
  · intro slots
    cases slots with
    | nil => rfl
    | cons s rest => rfl
  · intro js
    rfl

/-- Witness for C5's amended theorem: a malformed hex element for a
BlockNumber parameter is rejected with -32602 naming the method. -/
theorem dispatcher_param_decode_amended_witness :
    mockDispatcher.handleReq ⟨"mock_block", some (.arr [.str "zz"]), "1"⟩ =
      .error (invalidArguments "mock_block") :=
  (dispatcher_param_decode_amended mockDispatcher
    ⟨"mock_block", some (.arr [.str "zz"]), "1"⟩ mockBlockFunc
    "strconv.ParseUint: parsing: invalid syntax" (by rfl) (by rfl)).1

/-! ## Filter manager theorems -/

theorem lookup_map_replace (l : List (String × Filter)) (id : String)
    (f newF : Filter) (hl : l.lookup id = some f) :
    (l.map (fun kv => cond (kv.1 == id) (kv.1, newF) kv)).lookup id = some newF := by
  induction l with
  | nil => simp at hl
  | cons kv t ih =>
    obtain ⟨k, v⟩ := kv
    by_cases hk : k = id
    · have hb : (k == id) = true := beq_iff_eq.mpr hk
      have hb2 : (id == k) = true := beq_iff_eq.mpr hk.symm
      simp [List.lookup, hb, hb2]
    · have hb : (k == id) = false := beq_eq_false_iff_ne.mpr hk
      have hb2 : (id == k) = false := beq_eq_false_iff_ne.mpr (fun hc => hk hc.symm)
      simp only [List.lookup, hb2] at hl
      simp only [List.map_cons, hb, Bool.cond_false, List.lookup, hb2]
      exact ih hl

/-- C9: GetFilterChanges is polling-mode only — a subscription-mode
(WebSocket-backed) id fails with "filter does not exist", while a
polling-mode id returns the accumulated batch and the new state has that
filter's buffer reset and its last-access stamp refreshed to now. -/
theorem filterManager_getFilterChanges_spec (m : FilterManager) (id : String)
    (f : Filter) (hf : m.filters.lookup id = some f) :
    (f.hasWSConn = true → m.GetFilterChanges id = .error errFilterDoesNotExists) ∧
    (f.hasWSConn = false → ∃ m', m.GetFilterChanges id = .ok (f.updates, m') ∧
      m'.filters.lookup id = some ⟨false, [], m.now⟩ ∧ m'.now = m.now) := by
  constructor
  · intro hws
    unfold FilterManager.GetFilterChanges
    rw [hf]
    show (if f.hasWSConn then Except.error errFilterDoesNotExists
      else .ok (f.updates,
        FilterManager.mk
          (m.filters.map (fun kv => cond (kv.1 == id) (kv.1, Filter.mk false [] m.now) kv))
          m.now)) = .error errFilterDoesNotExists
    rw [if_pos hws]
  · intro hws
    refine ⟨FilterManager.mk
      (m.filters.map (fun kv => cond (kv.1 == id) (kv.1, Filter.mk false [] m.now) kv))
      m.now, ?_, ?_, rfl⟩
    · unfold FilterManager.GetFilterChanges
      rw [hf]
      show (if f.hasWSConn then Except.error errFilterDoesNotExists
        else .ok (f.updates,
          FilterManager.mk
            (m.filters.map (fun kv => cond (kv.1 == id) (kv.1, Filter.mk false [] m.now) kv))
            m.now)) = _
      rw [if_neg (by rw [hws]; exact Bool.false_ne_true)]
    · exact lookup_map_replace m.filters id f (Filter.mk false [] m.now) hf

/-- Witness for C9: polling the subscription-mode filter "a" fails with
"filter does not exist"; polling the polling-mode filter "b" returns its
batch and resets it. -/
theorem filterManager_getFilterChanges_spec_witness :
    ((true : Bool) = true →
      wsFilterManager.GetFilterChanges "a" = .error errFilterDoesNotExists) ∧
    ((true : Bool) = false → ∃ m',
      wsFilterManager.GetFilterChanges "a" = .ok ([], m') ∧
      m'.filters.lookup "a" = some ⟨false, [], wsFilterManager.now⟩ ∧
      m'.now = wsFilterManager.now) :=
  filterManager_getFilterChanges_spec wsFilterManager "a" ⟨true, [], 0⟩ (by rfl)

end EthJsonRpc
